import Mathlib

/-!
Verification of the `Cache` module (`0x02-redis_basic/exercise.py`): a facade
over a Redis key-value store with two instrumentation decorators
(`count_calls`, `call_history`) and a `replay` transcript printer.

Shallow embedding: the external Redis store is a state holding a map from keys
to string values (Redis byte strings are modelled as Lean `String`s, i.e. we
restrict attention to valid-UTF-8 byte sequences, so `bytes.decode("utf-8")`
and `str.encode("utf-8")` are identities) and a map from keys to lists (for
RPUSH/LRANGE).  Every facade operation threads the state explicitly.  Python
`str(int)` and `int(str)` are modelled by an executable decimal printer and
parser proved to round-trip.
-/

/-- Decimal digit character for `d < 10` (code 48 + d), as produced by
Python `str` on integers. -/
def digitChar (d : Nat) : Char := Char.ofNat (48 + d)

/-- Numeric value of a decimal digit character. -/
def digitVal (c : Char) : Nat := c.toNat - 48

/-- Is `c` an ASCII decimal digit? -/
def isDigitChar (c : Char) : Bool := 48 ≤ c.toNat && c.toNat ≤ 57

/-- Little-endian decimal digits of `n` (least significant first); `[0]` for 0.
Mirrors the digit sequence of Python `str(n)` for `n ≥ 0`, reversed. -/
def natDigitsRev (n : Nat) : List Nat :=
  if h : n < 10 then [n]
  else (n % 10) :: natDigitsRev (n / 10)
decreasing_by exact Nat.div_lt_self (by omega) (by omega)

/-- Python `str(n)` for a natural number: big-endian decimal digits. -/
def natStr (n : Nat) : String := String.mk ((natDigitsRev n).reverse.map digitChar)

/-- Python `str(n)` for an integer (a minus sign followed by the digits when
negative). -/
def pyStr (n : Int) : String :=
  if n < 0 then "-" ++ natStr n.natAbs else natStr n.natAbs

/-- Value of a big-endian digit list (most significant first). -/
def natOfDigits (l : List Nat) : Nat := l.foldl (fun a d => 10 * a + d) 0

/-- Value of a little-endian digit list (least significant first). -/
def valRevDigits : List Nat → Nat
  | [] => 0
  | d :: rest => d + 10 * valRevDigits rest

/-- Parse a nonempty all-digit character list as a natural number; `none`
otherwise.  Models the digits part of Python `int()` on canonical text. -/
def natParse (l : List Char) : Option Nat :=
  if l.isEmpty then none
  else if l.all isDigitChar then some (natOfDigits (l.map digitVal)) else none

/-- Python `int(s)` on canonical decimal text: an optional minus sign followed
by decimal digits; `none` models the `ValueError` raised on other input. -/
def pyIntOfString? (s : String) : Option Int :=
  match s.data with
  | [] => none
  | c :: rest =>
    if c = '-' then (natParse rest).map (fun m => -(Int.ofNat m))
    else (natParse (c :: rest)).map (fun m => Int.ofNat m)

/-- A primitive value accepted by `Cache.store`
(`Union[str, bytes, int, float]`).  A byte sequence is carried as a `String`
(its UTF-8 decoding); a float is carried as its Python `repr` text, which is
all the store ever sees of it. -/
inductive PyVal
  | str (s : String)
  | bytes (b : String)
  | int (n : Int)
  | float (r : String)
deriving DecidableEq, Repr

/-- How the redis-py client encodes a value to the byte string actually
stored: bytes pass through, text is UTF-8 encoded (identity here), an int is
sent as its decimal text, a float as its repr text. -/
def encodeVal : PyVal → String
  | .str s => s
  | .bytes b => b
  | .int n => pyStr n
  | .float r => r

/-- Python `repr` of a primitive value, as it appears inside `str(args)`. -/
def pyRepr : PyVal → String
  | .str s => "\x27" ++ s ++ "\x27"
  | .bytes b => "b\x27" ++ b ++ "\x27"
  | .int n => pyStr n
  | .float r => r

/-- Python `str(args)` for the one-element positional tuple `(data,)`. -/
def strArgs (v : PyVal) : String := "(" ++ pyRepr v ++ ",)"

/-- The state of the external Redis store: a keyspace of string values
(SET/GET/INCR) and a keyspace of lists (RPUSH/LRANGE).  Method keys
(`Cache.store`), data keys (UUIDs) and list keys never collide across the two
maps in this program. -/
structure RedisState where
  kv : String → Option String
  lists : String → List String

/-- Redis SET. -/
def redisSet (st : RedisState) (k v : String) : RedisState :=
  { st with kv := fun q => if q = k then some v else st.kv q }

/-- Redis GET (on a string key). -/
def redisGet (st : RedisState) (k : String) : Option String := st.kv k

/-- Integer value currently stored at `k`: absent is 0.  (Redis INCR errors on
a non-integer value; in this program the key only ever holds canonical
integers, so the unparseable case is defaulted to 0.) -/
def readIntAt (st : RedisState) (k : String) : Int :=
  match st.kv k with
  | none => 0
  | some s => (pyIntOfString? s).getD 0

/-- Redis INCR: parse the current value (absent = 0), add one, store the
decimal text back. -/
def redisIncr (st : RedisState) (k : String) : RedisState :=
  redisSet st k (pyStr (readIntAt st k + 1))

/-- Redis RPUSH: append one element to the list at `k` (absent = empty). -/
def redisRpush (st : RedisState) (k v : String) : RedisState :=
  { st with lists := fun q => if q = k then st.lists k ++ [v] else st.lists q }

/-- Redis LRANGE key 0 -1: the whole list. -/
def redisLrangeAll (st : RedisState) (k : String) : List String := st.lists k

/-- Redis FLUSHDB: every key of every kind is removed. -/
def redisFlushdb (_st : RedisState) : RedisState :=
  ⟨fun _ => none, fun _ => []⟩

/-- The type of an instrumentable store method bound to a facade: it receives
the store state and the `data` argument, and returns the new state plus
`some key` on success or `none` when the underlying operation raised (the
exception propagates but the state changes made so far persist). -/
def OpT := RedisState → PyVal → RedisState × Option String

/-- The `count_calls` decorator: INCR the counter at the method's qualified
name, then delegate.  No rollback on failure of the wrapped method. -/
def count_calls (qual : String) (method : OpT) : OpT := fun st args =>
  method (redisIncr st qual) args

/-- The `call_history` decorator: RPUSH `str(args)` to `<qual>:inputs`, run
the wrapped method, and on success RPUSH `str(result)` to `<qual>:outputs`
(the result is already a string).  When the wrapped method raises, the output
push is skipped. -/
def call_history (qual : String) (method : OpT) : OpT := fun st args =>
  let st1 := redisRpush st (qual ++ ":inputs") (strArgs args)
  let (st2, result) := method st1 args
  match result with
  | some r => (redisRpush st2 (qual ++ ":outputs") r, some r)
  | none => (st2, none)

/-- The body of `Cache.store`: SET the encoded data under the freshly
generated UUID key (supplied here as the `key` oracle argument) and return the
key. -/
def store_raw (key : String) : OpT := fun st data =>
  (redisSet st key (encodeVal data), some key)

/-- A store-write that fails (e.g. `StoreWriteError` from the underlying SET):
no state change from the write itself, and the exception propagates. -/
def store_raw_fail : OpT := fun st _ => (st, none)

/-- `method.__qualname__` of the store method. -/
def storeQual : String := "Cache.store"

/-- `Cache.__init__` against an existing store: connect and FLUSHDB. -/
def Cache.init (st : RedisState) : RedisState := redisFlushdb st

/-- `Cache.store` as decorated in the source:
`@call_history` over `@count_calls` over the raw write.  `key` is the fresh
`str(uuid.uuid4())` for this call. -/
def Cache.store (st : RedisState) (key : String) (data : PyVal) :
    RedisState × Option String :=
  call_history storeQual (count_calls storeQual (store_raw key)) st data

/-- `Cache.store` when the underlying write raises: the decorators run their
pre-work, the write fails, the post-work is skipped. -/
def Cache.storeFail (st : RedisState) (data : PyVal) :
    RedisState × Option String :=
  call_history storeQual (count_calls storeQual store_raw_fail) st data

/-- Result of `Cache.get`: the explicit not-found result (`None`), a value,
or a `DecodeError` raised by the decoder. -/
inductive GetResult
  | notFound
  | value (v : PyVal)
  | decodeError
deriving DecidableEq, Repr

/-- `Cache.get(key, fn=None)`: GET the raw bytes; absent returns `None`;
otherwise apply `fn` when given (`none` from the decoder models a raised
exception), else return the raw bytes.  The returned state is threaded to
express that the operation only reads. -/
def Cache.get (st : RedisState) (key : String)
    (fn : Option (String → Option PyVal)) : GetResult × RedisState :=
  match redisGet st key with
  | none => (.notFound, st)
  | some data =>
    match fn with
    | none => (.value (.bytes data), st)
    | some f =>
      match f data with
      | some v => (.value v, st)
      | none => (.decodeError, st)

/-- `Cache.get_str`: `get` with a UTF-8 decode (identity on our byte model). -/
def Cache.get_str (st : RedisState) (key : String) : GetResult × RedisState :=
  Cache.get st key (some (fun d => some (.str d)))

/-- `Cache.get_int`: `get` with Python `int()` as the decoder. -/
def Cache.get_int (st : RedisState) (key : String) : GetResult × RedisState :=
  Cache.get st key (some (fun d => (pyIntOfString? d).map PyVal.int))

/-- `calls_int` in `replay`: GET the counter; `None` or empty is 0; an
unparseable value is 0 (the `except` branch). -/
def replayCount (st : RedisState) (qual : String) : Int :=
  match redisGet st qual with
  | none => 0
  | some s => if s = "" then 0 else (pyIntOfString? s).getD 0

/-- The header line printed by `replay`. -/
def fmtHeader (qual : String) (k : Int) : String :=
  qual ++ " was called " ++ pyStr k ++ " times:"

/-- One transcript body line printed by `replay`. -/
def fmtLine (qual inp out : String) : String :=
  qual ++ "(*" ++ inp ++ ") -> " ++ out

/-- `replay(method)`: the lines printed to standard output, in order: the
header, then one line per `zip(inputs, outputs)` pair. -/
def replay (st : RedisState) (qual : String) : List String :=
  let inputs := redisLrangeAll st (qual ++ ":inputs")
  let outputs := redisLrangeAll st (qual ++ ":outputs")
  fmtHeader qual (replayCount st qual) ::
    (inputs.zip outputs).map (fun p => fmtLine qual p.1 p.2)

/-- A sequence of successful `Cache.store` calls: each list entry is the
`data` argument paired with the fresh key generated for that call. -/
def runStores (st : RedisState) : List (PyVal × String) → RedisState
  | [] => st
  | c :: rest => runStores (Cache.store st c.2 c.1).1 rest

/-- A store state with no keys at all (what a fresh Redis instance plus
FLUSHDB leaves behind). -/
def emptyState : RedisState := ⟨fun _ => none, fun _ => []⟩

theorem natDigitsRev_eq_of_lt {n : Nat} (h : n < 10) : natDigitsRev n = [n] := by
  unfold natDigitsRev
  simp [h]

theorem natDigitsRev_eq_of_ge {n : Nat} (h : ¬ n < 10) :
    natDigitsRev n = (n % 10) :: natDigitsRev (n / 10) := by
  conv_lhs => unfold natDigitsRev
  simp [h]

theorem natDigitsRev_ne_nil (n : Nat) : natDigitsRev n ≠ [] := by
  by_cases h : n < 10
  · rw [natDigitsRev_eq_of_lt h]; simp
  · rw [natDigitsRev_eq_of_ge h]; simp

theorem valRevDigits_natDigitsRev (n : Nat) : valRevDigits (natDigitsRev n) = n := by
  induction n using Nat.strong_induction_on with
  | _ n ih =>
    by_cases h : n < 10
    · rw [natDigitsRev_eq_of_lt h]; simp [valRevDigits]
    · rw [natDigitsRev_eq_of_ge h]
      rw [valRevDigits, ih (n / 10) (Nat.div_lt_self (by omega) (by decide))]
      omega

theorem natDigitsRev_lt (n : Nat) : ∀ d ∈ natDigitsRev n, d < 10 := by
  induction n using Nat.strong_induction_on with
  | _ n ih =>
    by_cases h : n < 10
    · rw [natDigitsRev_eq_of_lt h]; simpa using h
    · rw [natDigitsRev_eq_of_ge h]
      intro d hd
      rcases List.mem_cons.mp hd with h1 | h2
      · subst h1; exact Nat.mod_lt _ (by omega)
      · exact ih (n / 10) (Nat.div_lt_self (by omega) (by decide)) d h2

theorem digitChar_spec {d : Nat} (h : d < 10) :
    digitVal (digitChar d) = d ∧ isDigitChar (digitChar d) = true ∧ digitChar d ≠ '-' := by
  interval_cases d <;> decide

theorem foldl_reverse_digits (l : List Nat) :
    ∀ a, (l.reverse).foldl (fun x d => 10 * x + d) a
      = a * 10 ^ l.length + valRevDigits l := by
  induction l with
  | nil => intro a; simp [valRevDigits]
  | cons d rest ih =>
    intro a
    simp only [List.reverse_cons, List.foldl_append, ih, valRevDigits,
      List.foldl_cons, List.foldl_nil, List.length_cons]
    ring

theorem natOfDigits_reverse (l : List Nat) : natOfDigits l.reverse = valRevDigits l := by
  simpa [natOfDigits] using foldl_reverse_digits l 0

theorem natStr_data (n : Nat) : (natStr n).data = (natDigitsRev n).reverse.map digitChar := rfl

theorem natParse_natStr (n : Nat) : natParse (natStr n).data = some n := by
  rw [natStr_data]
  have hlt := natDigitsRev_lt n
  have hne : (natDigitsRev n).reverse.map digitChar ≠ [] := by
    simp [natDigitsRev_ne_nil n]
  rw [natParse, if_neg (by simpa [List.isEmpty_iff] using hne)]
  rw [if_pos]
  · congr 1
    rw [List.map_map]
    have hptw : ∀ d ∈ (natDigitsRev n).reverse, (digitVal ∘ digitChar) d = id d :=
      fun d hd => (digitChar_spec (hlt d (List.mem_reverse.mp hd))).1
    rw [List.map_congr_left hptw, List.map_id, natOfDigits_reverse,
      valRevDigits_natDigitsRev]
  · rw [List.all_eq_true]
    intro c hc
    rcases List.mem_map.mp hc with ⟨d, hd, hcd⟩
    subst hcd
    exact (digitChar_spec (hlt d (List.mem_reverse.mp hd))).2.1

theorem natStr_head_not_minus (n : Nat) :
    ∀ c rest, (natStr n).data = c :: rest → c ≠ '-' := by
  intro c rest hdata
  have hc : c ∈ (natStr n).data := by rw [hdata]; exact List.mem_cons_self _ _
  rw [natStr_data] at hc
  rcases List.mem_map.mp hc with ⟨d, hd, hcd⟩
  subst hcd
  exact (digitChar_spec (natDigitsRev_lt n d (List.mem_reverse.mp hd))).2.2

theorem pyIntOfString_natStr (n : Nat) : pyIntOfString? (natStr n) = some (n : Int) := by
  have hne : (natStr n).data ≠ [] := by
    rw [natStr_data]
    simp [natDigitsRev_ne_nil n]
  rcases hl : (natStr n).data with _ | ⟨c, rest⟩
  · exact absurd hl hne
  · have hc := natStr_head_not_minus n c rest hl
    simp only [pyIntOfString?, hl, if_neg hc]
    rw [← hl, natParse_natStr]
    rfl

theorem pyIntOfString_pyStr (n : Int) : pyIntOfString? (pyStr n) = some n := by
  rw [pyStr]
  by_cases h : n < 0
  · rw [if_pos h]
    have hdata : ("-" ++ natStr n.natAbs).data = '-' :: (natStr n.natAbs).data := by
      rw [String.data_append]
      rfl
    simp only [pyIntOfString?, hdata, if_pos, natParse_natStr, Option.map_some',
      Int.ofNat_eq_coe]
    congr 1
    omega
  · rw [if_neg h, pyIntOfString_natStr]
    congr 1
    omega

theorem storeInKey_ne_outKey : storeQual ++ ":inputs" ≠ storeQual ++ ":outputs" := by
  decide

theorem store_eq (st : RedisState) (key : String) (d : PyVal) :
    Cache.store st key d =
      (redisRpush
        (redisSet
          (redisIncr (redisRpush st (storeQual ++ ":inputs") (strArgs d)) storeQual)
          key (encodeVal d))
        (storeQual ++ ":outputs") key, some key) := rfl

theorem storeFail_eq (st : RedisState) (d : PyVal) :
    Cache.storeFail st d =
      (redisIncr (redisRpush st (storeQual ++ ":inputs") (strArgs d)) storeQual,
        none) := rfl

theorem kv_redisRpush (st : RedisState) (k v q : String) :
    (redisRpush st k v).kv q = st.kv q := rfl

theorem lists_redisSet (st : RedisState) (k v q : String) :
    (redisSet st k v).lists q = st.lists q := rfl

theorem lists_redisIncr (st : RedisState) (k q : String) :
    (redisIncr st k).lists q = st.lists q := rfl

theorem lists_redisRpush (st : RedisState) (k v q : String) :
    (redisRpush st k v).lists q = if q = k then st.lists k ++ [v] else st.lists q := rfl

theorem kv_redisSet (st : RedisState) (k v q : String) :
    (redisSet st k v).kv q = if q = k then some v else st.kv q := rfl

theorem readIntAt_redisRpush (st : RedisState) (k v q : String) :
    readIntAt (redisRpush st k v) q = readIntAt st q := rfl

theorem readIntAt_redisIncr (st : RedisState) (k : String) :
    readIntAt (redisIncr st k) k = readIntAt st k + 1 := by
  rw [readIntAt, redisIncr, kv_redisSet, if_pos rfl]
  simp only [pyIntOfString_pyStr, Option.getD_some]

theorem store_lists_inputs (st : RedisState) (key : String) (d : PyVal) :
    ((Cache.store st key d).1).lists (storeQual ++ ":inputs")
      = st.lists (storeQual ++ ":inputs") ++ [strArgs d] := by
  rw [store_eq]
  rw [lists_redisRpush, if_neg storeInKey_ne_outKey, lists_redisSet, lists_redisIncr,
    lists_redisRpush, if_pos rfl]

theorem store_lists_outputs (st : RedisState) (key : String) (d : PyVal) :
    ((Cache.store st key d).1).lists (storeQual ++ ":outputs")
      = st.lists (storeQual ++ ":outputs") ++ [key] := by
  rw [store_eq]
  rw [lists_redisRpush, if_pos rfl, lists_redisSet, lists_redisIncr,
    lists_redisRpush, if_neg (Ne.symm storeInKey_ne_outKey)]

theorem store_kv_key (st : RedisState) (key : String) (d : PyVal) :
    ((Cache.store st key d).1).kv key = some (encodeVal d) := by
  rw [store_eq]
  rw [kv_redisRpush, kv_redisSet, if_pos rfl]

theorem store_kv_counter (st : RedisState) (key : String) (d : PyVal)
    (h : key ≠ storeQual) :
    ((Cache.store st key d).1).kv storeQual
      = some (pyStr (readIntAt st storeQual + 1)) := by
  rw [store_eq]
  rw [kv_redisRpush, kv_redisSet, if_neg (Ne.symm h), redisIncr, kv_redisSet,
    if_pos rfl, readIntAt_redisRpush]

theorem store_readIntAt (st : RedisState) (key : String) (d : PyVal)
    (h : key ≠ storeQual) :
    readIntAt ((Cache.store st key d).1) storeQual = readIntAt st storeQual + 1 := by
  rw [readIntAt, store_kv_counter st key d h]
  simp only [pyIntOfString_pyStr, Option.getD_some]

theorem store_snd (st : RedisState) (key : String) (d : PyVal) :
    (Cache.store st key d).2 = some key := rfl

theorem runStores_lists_inputs (cs : List (PyVal × String)) :
    ∀ st : RedisState, (runStores st cs).lists (storeQual ++ ":inputs")
      = st.lists (storeQual ++ ":inputs") ++ cs.map (fun c => strArgs c.1) := by
  induction cs with
  | nil => intro st; simp [runStores]
  | cons c rest ih =>
    intro st
    rw [runStores, ih, store_lists_inputs]
    simp

theorem runStores_lists_outputs (cs : List (PyVal × String)) :
    ∀ st : RedisState, (runStores st cs).lists (storeQual ++ ":outputs")
      = st.lists (storeQual ++ ":outputs") ++ cs.map (fun c => c.2) := by
  induction cs with
  | nil => intro st; simp [runStores]
  | cons c rest ih =>
    intro st
    rw [runStores, ih, store_lists_outputs]
    simp

theorem runStores_counter_aux (cs : List (PyVal × String)) :
    ∀ st : RedisState, cs.all (fun c => c.2 != storeQual) = true →
      readIntAt (runStores st cs) storeQual = readIntAt st storeQual + cs.length
      ∧ (cs ≠ [] → (runStores st cs).kv storeQual
          = some (pyStr (readIntAt st storeQual + cs.length))) := by
  induction cs with
  | nil =>
    intro st _
    exact ⟨by simp [runStores], by simp⟩
  | cons c rest ih =>
    intro st hall
    rw [List.all_cons, Bool.and_eq_true] at hall
    have hkey : c.2 ≠ storeQual := by simpa using hall.1
    obtain ⟨ihA, ihB⟩ := ih (Cache.store st c.2 c.1).1 hall.2
    have hread := store_readIntAt st c.2 c.1 hkey
    constructor
    · rw [runStores, ihA, hread, List.length_cons]
      push_cast
      ring
    · intro _
      rcases Decidable.em (rest = []) with hr | hr
      · subst hr
        rw [runStores, runStores, store_kv_counter st c.2 c.1 hkey]
        norm_num
      · rw [runStores, ihB hr, hread]
        congr 2
        rw [List.length_cons]
        push_cast
        ring

theorem get_snd (st : RedisState) (key : String)
    (fn : Option (String → Option PyVal)) : (Cache.get st key fn).2 = st := by
  rcases hg : redisGet st key with _ | data
  · simp [Cache.get, hg]
  · rcases fn with _ | f
    · simp [Cache.get, hg]
    · rcases hf : f data with _ | v <;> simp [Cache.get, hg, hf]

/-- C1 (amended): storing any supported primitive value and reading it back
with no decoder returns the stored byte string, i.e. the encoding of the
value (text is UTF-8 encoded, an int or float becomes its textual form);
since the encoding of a byte value is the value itself, the round-trip
identity `get(store(v)) == v` holds exactly for raw byte sequences. -/
theorem C1_store_get_encoded (st : RedisState) (key : String) (v : PyVal) :
    (Cache.get (Cache.store st key v).1 key none).1
      = GetResult.value (.bytes (encodeVal v))
    ∧ ∀ b : String, encodeVal (PyVal.bytes b) = b := by
  constructor
  · simp only [Cache.get, redisGet, store_kv_key]
  · intro b
    rfl

/-- C1 (counterexample): storing the UTF-8 text `"foo"` and reading it back
with no decoder yields the byte string `b"foo"`, not the text value itself,
so `get(store(v)) == v` fails for text values. -/
theorem C1_roundtrip_cex :
    (Cache.get (Cache.store (Cache.init emptyState) "k1" (PyVal.str "foo")).1
        "k1" none).1 ≠ GetResult.value (PyVal.str "foo") := by
  decide

/-- C4: `get`, `get_str` and `get_int` on a key that was never stored all
return the explicit not-found result (`None`) and never raise. -/
theorem C4_get_missing (st : RedisState) (key : String) (h : st.kv key = none) :
    (Cache.get st key none).1 = .notFound
    ∧ (Cache.get_str st key).1 = .notFound
    ∧ (Cache.get_int st key).1 = .notFound := by
  refine ⟨?_, ?_, ?_⟩ <;>
    simp only [Cache.get, Cache.get_str, Cache.get_int, redisGet, h]

theorem C4_get_missing_witness :
    emptyState.kv "missing" = none
    ∧ ((Cache.get emptyState "missing" none).1 = .notFound
      ∧ (Cache.get_str emptyState "missing").1 = .notFound
      ∧ (Cache.get_int emptyState "missing").1 = .notFound) :=
  ⟨rfl, C4_get_missing emptyState "missing" rfl⟩

/-- C10: on an absent key, `get` returns not-found without ever applying the
supplied decoder, so no decoder — even one that raises on every input (here,
one that returns the raised marker on every input) — can make `get` fail on a
missing key. -/
theorem C10_missing_skips_decoder (st : RedisState) (key : String)
    (h : st.kv key = none) (f : String → Option PyVal) :
    (Cache.get st key (some f)).1 = .notFound := by
  simp only [Cache.get, redisGet, h]

theorem C10_missing_skips_decoder_witness :
    emptyState.kv "nokey" = none
    ∧ (Cache.get emptyState "nokey" (some (fun _ => none))).1 = .notFound :=
  ⟨rfl, C10_missing_skips_decoder emptyState "nokey" rfl (fun _ => none)⟩

/-- C9: the read operations `get`, `get_str` and `get_int` leave the store
state — every stored entry, the counter and both history lists — unchanged. -/
theorem C9_get_readonly (st : RedisState) (key : String)
    (fn : Option (String → Option PyVal)) :
    (Cache.get st key fn).2 = st
    ∧ (Cache.get_str st key).2 = st
    ∧ (Cache.get_int st key).2 = st :=
  ⟨get_snd st key fn, get_snd st key _, get_snd st key _⟩

/-- C7: constructing a new facade flushes the store, so a key stored through
an earlier instance reads back as not-found afterwards. -/
theorem C7_init_clears (st : RedisState) (key : String) (v : PyVal) :
    (Cache.get (Cache.init (Cache.store st key v).1) key none).1
      = GetResult.notFound := rfl

/-- C6: `get_int` round-trips any integer, whether stored as the integer
itself or as its textual form `str(n)`; in particular
`get_int(store(123)) == 123`. -/
theorem C6_get_int_roundtrip (st : RedisState) (key : String) (n : Int) :
    (Cache.get_int (Cache.store st key (PyVal.int n)).1 key).1
      = GetResult.value (.int n)
    ∧ (Cache.get_int (Cache.store st key (PyVal.str (pyStr n))).1 key).1
      = GetResult.value (.int n) := by
  constructor <;>
  · simp only [Cache.get_int, Cache.get, redisGet, store_kv_key, encodeVal,
      pyIntOfString_pyStr, Option.map_some']

/-- C2: after any sequence of `k` successful instrumented `store` calls, the
`Cache.store:inputs` and `Cache.store:outputs` lists both have length `k`,
and the `i`-th input entry (the serialized argument of call `i`) corresponds
to the `i`-th output entry (the key returned by call `i`), for every `i`. -/
theorem C2_history_parallel (st : RedisState) (cs : List (PyVal × String)) :
    (runStores (Cache.init st) cs).lists (storeQual ++ ":inputs")
        = cs.map (fun c => strArgs c.1)
    ∧ (runStores (Cache.init st) cs).lists (storeQual ++ ":outputs")
        = cs.map (fun c => c.2)
    ∧ ((runStores (Cache.init st) cs).lists (storeQual ++ ":inputs")).length
        = cs.length
    ∧ ((runStores (Cache.init st) cs).lists (storeQual ++ ":outputs")).length
        = cs.length
    ∧ ∀ i : Nat,
        ((runStores (Cache.init st) cs).lists (storeQual ++ ":inputs"))[i]?
          = (cs[i]?).map (fun c => strArgs c.1)
        ∧ ((runStores (Cache.init st) cs).lists (storeQual ++ ":outputs"))[i]?
          = (cs[i]?).map (fun c => c.2) := by
  have hin := runStores_lists_inputs cs (Cache.init st)
  have hout := runStores_lists_outputs cs (Cache.init st)
  rw [show (Cache.init st).lists (storeQual ++ ":inputs") = [] from rfl,
    List.nil_append] at hin
  rw [show (Cache.init st).lists (storeQual ++ ":outputs") = [] from rfl,
    List.nil_append] at hout
  refine ⟨hin, hout, ?_, ?_, ?_⟩
  · rw [hin, List.length_map]
  · rw [hout, List.length_map]
  · intro i
    rw [hin, hout]
    exact ⟨List.getElem?_map _ _ _, List.getElem?_map _ _ _⟩

/-- C3: after `k` sequential successful instrumented `store` calls (with the
fresh keys distinct from the method identity, as UUID keys are), the counter
under `Cache.store` reads exactly `k`: it starts absent (read as zero) and
each call increments it by one; after at least one call the stored value is
the decimal text of `k`. -/
theorem C3_counter (st : RedisState) (cs : List (PyVal × String))
    (h : cs.all (fun c => c.2 != storeQual) = true) :
    readIntAt (runStores (Cache.init st) cs) storeQual = cs.length
    ∧ (runStores (Cache.init st) cs).kv storeQual
        = if cs = [] then none else some (pyStr cs.length) := by
  obtain ⟨hA, hB⟩ := runStores_counter_aux cs (Cache.init st) h
  have h0 : readIntAt (Cache.init st) storeQual = 0 := rfl
  constructor
  · rw [hA, h0, zero_add]
  · rcases Decidable.em (cs = []) with hc | hc
    · subst hc
      rw [if_pos rfl]
      rfl
    · rw [if_neg hc, hB hc, h0, zero_add]

theorem C3_counter_witness :
    ([(PyVal.str "foo", "k1"), (PyVal.int 5, "k2")].all
        (fun c => c.2 != storeQual) = true)
    ∧ readIntAt
        (runStores (Cache.init emptyState)
          [(PyVal.str "foo", "k1"), (PyVal.int 5, "k2")]) storeQual = 2 :=
  ⟨by decide,
    (C3_counter emptyState [(PyVal.str "foo", "k1"), (PyVal.int 5, "k2")]
      (by decide)).1⟩

/-- C5: when the underlying store write fails, the call raises (`none`
result), the invocation counter has already been incremented and is not
rolled back, the input entry has been appended, and the output append is
skipped — so starting from equal-length histories, the inputs list ends up
exactly one entry longer than the outputs list. -/
theorem C5_fail_asymmetry (st : RedisState) (d : PyVal)
    (h : (st.lists (storeQual ++ ":inputs")).length
        = (st.lists (storeQual ++ ":outputs")).length) :
    (Cache.storeFail st d).2 = none
    ∧ readIntAt (Cache.storeFail st d).1 storeQual = readIntAt st storeQual + 1
    ∧ ((Cache.storeFail st d).1).lists (storeQual ++ ":inputs")
        = st.lists (storeQual ++ ":inputs") ++ [strArgs d]
    ∧ ((Cache.storeFail st d).1).lists (storeQual ++ ":outputs")
        = st.lists (storeQual ++ ":outputs")
    ∧ (((Cache.storeFail st d).1).lists (storeQual ++ ":inputs")).length
        = (((Cache.storeFail st d).1).lists (storeQual ++ ":outputs")).length
          + 1 := by
  have hfst : (Cache.storeFail st d).1
      = redisIncr (redisRpush st (storeQual ++ ":inputs") (strArgs d))
          storeQual := by
    rw [storeFail_eq]
  refine ⟨rfl, ?_, ?_, ?_, ?_⟩
  · rw [hfst, readIntAt_redisIncr, readIntAt_redisRpush]
  · rw [hfst, lists_redisIncr, lists_redisRpush, if_pos rfl]
  · rw [hfst, lists_redisIncr, lists_redisRpush,
      if_neg (Ne.symm storeInKey_ne_outKey)]
  · simp [hfst, lists_redisIncr, lists_redisRpush,
      Ne.symm storeInKey_ne_outKey, h]

theorem C5_fail_asymmetry_witness :
    ((emptyState.lists (storeQual ++ ":inputs")).length
        = (emptyState.lists (storeQual ++ ":outputs")).length)
    ∧ (((Cache.storeFail emptyState (PyVal.str "foo")).1).lists
          (storeQual ++ ":inputs")).length
        = (((Cache.storeFail emptyState (PyVal.str "foo")).1).lists
            (storeQual ++ ":outputs")).length + 1 :=
  ⟨rfl, (C5_fail_asymmetry emptyState (PyVal.str "foo") rfl).2.2.2.2⟩

/-- C8: `replay` prints exactly one header line stating the total call count
(an absent counter — e.g. right after a flush — or an unparseable counter
value is reported as zero) followed by exactly `min(len(inputs),
len(outputs))` body lines, one per paired input/output entry in call order. -/
theorem C8_replay_shape (st : RedisState) (q : String) :
    replay st q
      = fmtHeader q (replayCount st q)
        :: ((st.lists (q ++ ":inputs")).zip (st.lists (q ++ ":outputs"))).map
          (fun p => fmtLine q p.1 p.2)
    ∧ (replay st q).length
        = 1 + min (st.lists (q ++ ":inputs")).length
            (st.lists (q ++ ":outputs")).length
    ∧ replayCount (Cache.init st) q = 0
    ∧ replayCount (redisSet st q "abc") q = 0 := by
  refine ⟨rfl, ?_, rfl, ?_⟩
  · simp only [replay, redisLrangeAll, List.length_cons, List.length_map,
      List.length_zip]
    omega
  · have hk : (redisSet st q "abc").kv q = some "abc" := by
      rw [kv_redisSet, if_pos rfl]
    rw [replayCount, redisGet, hk]
    decide
